import Mathlib

/-!
Verification of the tcon command-scheduling core against its specification.

The Python sources under study are shallowly embedded below:

* `common/schedule.py`   — the `Schedule` min-heap of pending commands;
* `common/models.py`     — command kinds, payload DTOs and their validation;
* `common/result.py` and `common/status.py` — result classification;
* `aimsun_entrypoint.py` — handler registration, the dispatch boundary
  `_execute`, and the per-step loops `_process_ipc` / `_process_schedule`;
* `server/ipc.py`        — the `ServerProcess` worker supervisor;
* `common/config.py`     — static-schedule loading.

Python floats are modelled as exact rationals extended with positive infinity
(`WithTop ℚ`); negative infinity and NaN do not occur on the modelled code
paths.  External collaborators (the `AKI…`/`ANGConn…` simulator calls, the
`multiprocessing` primitives, and the standard-library `heapq`) are modelled
by their documented contracts, as noted at each definition.
-/

namespace Tcon

/-- Python float values as used by the scheduler: exact rationals together
with positive infinity (`⊤`, Python's `float('inf')`). -/
abbrev PyFloat : Type := WithTop ℚ

/-- Source: common/models.py, `CommandType` — the closed enumeration of
command kinds. -/
inductive CommandType
  | INCIDENT_CREATE
  | INCIDENT_REMOVE
  | INCIDENTS_CLEAR_SECTION
  | INCIDENTS_RESET
  | MEASURE_CREATE
  | MEASURE_REMOVE
  | MEASURES_RESET
  | POLICY_ACTIVATE
  | POLICY_DEACTIVATE
deriving DecidableEq

/-- Source: common/models.py, `MeasureType` — the discriminator of the
measure-payload union. -/
inductive MeasureType
  | SPEED_SECTION
  | SPEED_DETAILED
  | LANE_CLOSURE
  | LANE_CLOSURE_DETAILED
  | LANE_DEACTIVATE_RESERVED
  | TURN_CLOSE
  | TURN_FORCE_OD
  | TURN_FORCE_RESULT
  | DESTINATION_CHANGE
deriving DecidableEq

/-- Source: common/models.py, `IncidentCreateDto`.  Field names and order
follow the source; pydantic declares `lane` with the bound `gt=0`. -/
structure IncidentCreateDto where
  section_id : Int
  lane : Int
  position : PyFloat
  length : PyFloat
  ini_time : PyFloat
  duration : PyFloat
  visibility_distance : PyFloat
  update_id_group : Bool
  apply_speed_reduction : Bool
  upstream_distance_SR : PyFloat
  downstream_distance_SR : PyFloat
  max_speed_SR : PyFloat
deriving DecidableEq

/-- Source: common/models.py, `IncidentRemoveDto`. -/
structure IncidentRemoveDto where
  section_id : Int
  lane : Int
  position : PyFloat
deriving DecidableEq

/-- Source: common/models.py, `IncidentsClearSectionDto`. -/
structure IncidentsClearSectionDto where
  section_id : Int
deriving DecidableEq

/-- Source: common/models.py, the `_MeasureBase` fields shared by every
measure variant together with the `type` discriminator of `MeasurePayload`.
The variant-specific geometry fields (section ids, speeds, lanes, …) are
consumed only by the external simulator calls inside `_apply_measure` and by
no modelled logic, so they are not represented; `id_action` and `duration`
are the fields the dispatcher's auto-removal logic reads. -/
structure MeasurePayload where
  type : MeasureType
  id_action : Option Int
  duration : Option PyFloat
deriving DecidableEq

/-- Source: common/models.py, `MeasureCreateDto` (a pydantic RootModel whose
`root` is the discriminated measure union). -/
structure MeasureCreateDto where
  root : MeasurePayload
deriving DecidableEq

/-- Source: common/models.py, `MeasureRemoveDto`; pydantic declares
`id_action` with the bound `gt=0`. -/
structure MeasureRemoveDto where
  id_action : Int
deriving DecidableEq

/-- Source: common/models.py, `PolicyTargetDto`; pydantic declares
`policy_id` with the bound `gt=0`. -/
structure PolicyTargetDto where
  policy_id : Int
deriving DecidableEq

/-- Payload of a command: the union of the per-kind payload models of
common/models.py.  `noPayload` stands for the `payload: None` of
`IncidentsResetCmd` and `MeasuresClearCmd`. -/
inductive Payload
  | incidentCreate (dto : IncidentCreateDto)
  | incidentRemove (dto : IncidentRemoveDto)
  | incidentsClearSection (dto : IncidentsClearSectionDto)
  | noPayload
  | measureCreate (dto : MeasureCreateDto)
  | measureRemove (dto : MeasureRemoveDto)
  | policyTarget (dto : PolicyTargetDto)
deriving DecidableEq

/-- Source: common/models.py, `CommandBase.IMMEDIATE = -1`, the sentinel
schedule time meaning "run as soon as possible". -/
def IMMEDIATE : PyFloat := ((-1 : ℚ) : PyFloat)

/-- Source: common/models.py, `CommandBase` — a kind-tagged command with its
schedule `time` and payload.  The per-kind wrapper classes
(`IncidentCreateCmd`, `MeasureRemoveCmd`, …) all share this shape; their
pydantic validators are modelled by `validateCommand` below. -/
structure CommandBase where
  command : CommandType
  time : PyFloat
  payload : Payload
deriving DecidableEq

/-- Heap entry `(cb.time, next(self._order), cb)` as pushed by
`Schedule.push` (common/schedule.py). -/
abbrev Entry : Type := PyFloat × ℕ × CommandBase

/-- The command stored in a heap entry. -/
def Entry.cmd (e : Entry) : CommandBase := e.2.2

/-- The sequence number stored in a heap entry. -/
def Entry.seq (e : Entry) : ℕ := e.2.1

/-- Lexicographic order on heap entries over `(time, sequence)`.  Python
compares the pushed tuples `(cb.time, next(self._order), cb)`
lexicographically; every entry carries a distinct sequence number, so the
comparison never reaches the third component and it is omitted from the
relation. -/
def entryLE (a b : Entry) : Prop := a.1 < b.1 ∨ (a.1 = b.1 ∧ a.2.1 ≤ b.2.1)

instance : DecidableRel entryLE := fun a b => by
  unfold entryLE; infer_instance

instance : IsTotal Entry entryLE where
  total a b := by
    rcases lt_trichotomy a.1 b.1 with h | h | h
    · exact Or.inl (Or.inl h)
    · rcases Nat.le_total a.2.1 b.2.1 with h2 | h2
      · exact Or.inl (Or.inr ⟨h, h2⟩)
      · exact Or.inr (Or.inr ⟨h.symm, h2⟩)
    · exact Or.inr (Or.inl h)

instance : IsTrans Entry entryLE where
  trans a b c hab hbc := by
    rcases hab with h1 | ⟨h1, h1'⟩ <;> rcases hbc with h2 | ⟨h2, h2'⟩
    · exact Or.inl (h1.trans h2)
    · exact Or.inl (h2 ▸ h1)
    · exact Or.inl (h1 ▸ h2)
    · exact Or.inr ⟨h1.trans h2, h1'.trans h2'⟩

/-- Source: common/schedule.py, `Schedule`.  `heap` models `self._heap` and
`order` models the state of the `itertools.count()` counter `self._order`
(the value the next `next()` call returns).  Python's `heapq` module is
standard-library code external to this repository; it is modelled by its
contract — `heappush` adds an entry and `heap[0]` / `heappop` return/remove a
least entry — by keeping `heap` sorted under `entryLE`.  Every observable the
source class uses (`heap[0]`, `heappop`, `len`, truthiness) agrees with this
representation, and since all entries carry distinct sequence numbers the
least entry is unique, so the observable behaviour is exactly that of the
binary heap. -/
structure Schedule where
  heap : List Entry
  order : ℕ
deriving DecidableEq

/-- The empty schedule, `Schedule()`. -/
def Schedule.empty : Schedule := ⟨[], 0⟩

/-- Source: common/schedule.py, `Schedule.push(cb)` — push
`(cb.time, next(self._order), cb)` onto the heap. -/
def Schedule.push (s : Schedule) (cb : CommandBase) : Schedule :=
  { heap := s.heap.orderedInsert entryLE (cb.time, s.order, cb), order := s.order + 1 }

/-- Source: common/schedule.py, `Schedule.__init__(items)` — push each item
in iteration order. -/
def Schedule.ofItems (items : List CommandBase) : Schedule :=
  items.foldl Schedule.push Schedule.empty

/-- Source: common/schedule.py, `Schedule.peek_time` — the root's time, or
`float('inf')` when the heap is empty. -/
def Schedule.peek_time (s : Schedule) : PyFloat :=
  match s.heap with
  | [] => ⊤
  | e :: _ => e.1

/-- Source: common/schedule.py, `Schedule.__bool__` — truthiness of the heap
list, i.e. non-emptiness. -/
def Schedule.toBool (s : Schedule) : Bool := !s.heap.isEmpty

/-- The `while heap and heap[0][0] <= up_to: heapq.heappop(heap)` loop of
`Schedule.ready` run with no reentrant pushes: splits the heap into the
popped prefix and the remaining entries (under the sorted-heap model,
popping the root is removing the head). -/
def readyDrain (up_to : PyFloat) : List Entry → List Entry × List Entry
  | [] => ([], [])
  | e :: rest =>
    if e.1 ≤ up_to then
      ((e :: (readyDrain up_to rest).1), (readyDrain up_to rest).2)
    else ([], e :: rest)

/-- Source: common/schedule.py, `Schedule.ready(up_to)` consumed to
exhaustion with no reentrant pushes: the commands yielded (in yield order)
and the schedule state left behind.  Reentrant consumption, where handlers
push between yields, is modelled by `processScheduleLoop` below. -/
def Schedule.ready (s : Schedule) (up_to : PyFloat) : List CommandBase × Schedule :=
  ((readyDrain up_to s.heap).1.map Entry.cmd, { s with heap := (readyDrain up_to s.heap).2 })

/-- Source: common/status.py, `AimsunStatus` — the closed set of status
kinds, extracted from Aimsun's C++ code. -/
inductive AimsunStatus
  | OK
  | INCIDENT_WRONG_INITIME
  | INCIDENT_WRONG_POSITION
  | INCIDENT_UNKNOWN_LANE
  | INCIDENT_UNKNOWN_SECTION
  | INCIDENT_NOT_PRESENT
  | INCIDENT_WRONG_LENGTH
  | INCIDENT_WRONG_DURATION
  | INF_NET_GET_MEM
  | INF_UNKNOWN_ID
  | INF_UNKNOWN_TURNING
  | INF_UNKNOWN_FROM_SECTION
  | INF_UNKNOWN_TO_SECTION
  | INF_NO_PATH
  | UNKNOWN_ERROR
  | API_FAILURE
deriving DecidableEq

/-- Integer value of each `AimsunStatus` member, as declared in
common/status.py. -/
def AimsunStatus.code : AimsunStatus → Int
  | .OK => 0
  | .INCIDENT_WRONG_INITIME => -8001
  | .INCIDENT_WRONG_POSITION => -8002
  | .INCIDENT_UNKNOWN_LANE => -8003
  | .INCIDENT_UNKNOWN_SECTION => -8004
  | .INCIDENT_NOT_PRESENT => -8005
  | .INCIDENT_WRONG_LENGTH => -8006
  | .INCIDENT_WRONG_DURATION => -8007
  | .INF_NET_GET_MEM => -5001
  | .INF_UNKNOWN_ID => -5002
  | .INF_UNKNOWN_TURNING => -5003
  | .INF_UNKNOWN_FROM_SECTION => -5004
  | .INF_UNKNOWN_TO_SECTION => -5005
  | .INF_NO_PATH => -5006
  | .UNKNOWN_ERROR => -9999
  | .API_FAILURE => -1

/-- All members of the enum, in declaration order. -/
def AimsunStatus.members : List AimsunStatus :=
  [.OK, .INCIDENT_WRONG_INITIME, .INCIDENT_WRONG_POSITION, .INCIDENT_UNKNOWN_LANE,
   .INCIDENT_UNKNOWN_SECTION, .INCIDENT_NOT_PRESENT, .INCIDENT_WRONG_LENGTH,
   .INCIDENT_WRONG_DURATION, .INF_NET_GET_MEM, .INF_UNKNOWN_ID, .INF_UNKNOWN_TURNING,
   .INF_UNKNOWN_FROM_SECTION, .INF_UNKNOWN_TO_SECTION, .INF_NO_PATH,
   .UNKNOWN_ERROR, .API_FAILURE]

/-- The value-to-member resolution `AimsunStatus(code)` of the Python
`IntEnum`: the member whose value is `code`, if any (the member values are
pairwise distinct, so the first match is the member). -/
def AimsunStatus.lookup (code : Int) : Option AimsunStatus :=
  AimsunStatus.members.find? (fun s => s.code == code)

/-- Source: common/status.py, `AimsunStatus.from_code` — member lookup, and
on `ValueError` fall back to `UNKNOWN_ERROR` for negative codes and `OK`
otherwise. -/
def AimsunStatus.from_code (code : Int) : AimsunStatus :=
  match AimsunStatus.lookup code with
  | some s => s
  | none => if code < 0 then .UNKNOWN_ERROR else .OK

/-- Source: common/result.py, `Result` — the dispatch outcome value.  The
type parameter of the Python generic is `int` at every modelled use site. -/
structure Result where
  status : AimsunStatus
  value : Option Int
  raw_code : Option Int
  message : Option String
deriving DecidableEq

/-- Source: common/result.py, `Result.ok(value, message)`. -/
def Result.okRes (value : Option Int) (message : Option String) : Result :=
  ⟨.OK, value, none, message⟩

/-- Source: common/result.py, `Result.err(message, code)`. -/
def Result.errRes (message : Option String) (code : Option Int) : Result :=
  ⟨.API_FAILURE, none, code, message⟩

/-- Source: common/result.py, `Result.is_ok`. -/
def Result.is_ok (r : Result) : Bool := r.status == .OK

/-- Source: common/result.py, `Result.from_aimsun(result, msg_ok, msg_err)`:
non-negative raw codes are success, negative codes are classified through
`AimsunStatus.from_code`; the raw code is always carried. -/
def Result.from_aimsun (result : Int) (msg_ok msg_err : Option String) : Result :=
  { status := if 0 ≤ result then .OK else .from_code result
    raw_code := some result
    value := if 0 ≤ result then some result else none
    message := if 0 ≤ result then msg_ok else msg_err }

/-- Validation failures raised by the pydantic models of common/models.py. -/
inductive ValErr
  | fieldConstraint
  | iniTimeBeforeSchedule
  | payloadKindMismatch
deriving DecidableEq

/-- Pydantic validation of a structurally parsed command, modelling the
per-kind wrapper classes of common/models.py: the declared `Field` bounds
(`lane` gt 0 on `IncidentCreateDto`, `id_action` gt 0 on `MeasureRemoveDto`,
`policy_id` gt 0 on `PolicyTargetDto`), the discriminated-union match of
payload against `command`, and the `IncidentCreateCmd._ini_after_time` model
validator, which runs after field validation and rejects
`payload.ini_time <= self.time`.  Constraints on measure fields not
represented in `MeasurePayload` (speeds, compliances, …) are outside the
model.  Pydantic may collect several diagnostics; the embedding reports the
first.  No validation happens anywhere else: in particular `Schedule.push`
and `Schedule.ready` never inspect a payload. -/
def validateCommand (c : CommandBase) : Except ValErr CommandBase :=
  match c.command, c.payload with
  | .INCIDENT_CREATE, .incidentCreate dto =>
    if dto.lane ≤ 0 then .error .fieldConstraint
    else if dto.ini_time ≤ c.time then .error .iniTimeBeforeSchedule
    else .ok c
  | .INCIDENT_REMOVE, .incidentRemove _ => .ok c
  | .INCIDENTS_CLEAR_SECTION, .incidentsClearSection _ => .ok c
  | .INCIDENTS_RESET, .noPayload => .ok c
  | .MEASURE_CREATE, .measureCreate _ => .ok c
  | .MEASURE_REMOVE, .measureRemove dto =>
    if dto.id_action ≤ 0 then .error .fieldConstraint else .ok c
  | .MEASURES_RESET, .noPayload => .ok c
  | .POLICY_ACTIVATE, .policyTarget dto =>
    if dto.policy_id ≤ 0 then .error .fieldConstraint else .ok c
  | .POLICY_DEACTIVATE, .policyTarget dto =>
    if dto.policy_id ≤ 0 then .error .fieldConstraint else .ok c
  | _, _ => .error .payloadKindMismatch

/-- Effect of one handler invocation (aimsun_entrypoint.py): the commands it
pushed into the module-level `_SCHEDULE` before finishing (as
`_measure_create` does), and how it finished — `.error` for an exception
escaping the handler, `.ok none` for a return value that is not a `Result`
(e.g. `_measures_clear` returns `None`), `.ok (some r)` for a returned
`Result`. -/
structure HandlerReturn where
  pushes : List CommandBase
  retval : Except Unit (Option Result)

/-- A wrapped handler as stored in `_HANDLERS`: takes the full command. -/
abbrev HandlerFn := CommandBase → HandlerReturn

/-- The `_HANDLERS` registry: a dict from command kind to wrapped handler. -/
abbrev Handlers := CommandType → Option HandlerFn

/-- The registry before any registration (an empty dict). -/
def emptyHandlers : Handlers := fun _ => none

/-- The three handler shapes accepted by `register_handler`
(aimsun_entrypoint.py): 0, 1 or 2 positional parameters.  A function of any
other arity makes the decorator raise `TypeError` before touching the
registry, so it is unrepresentable here. -/
inductive RawHandler
  | arity0 (fn : Unit → HandlerReturn)
  | arity1 (fn : Payload → HandlerReturn)
  | arity2 (fn : Payload → PyFloat → HandlerReturn)

/-- The arity-adapting `wrapper` closure built inside `register_handler`:
it calls `fn()`, `fn(cmd.payload)` or `fn(cmd.payload, cmd.time)`. -/
def wrapHandler : RawHandler → HandlerFn
  | .arity0 fn => fun _ => fn ()
  | .arity1 fn => fun cmd => fn cmd.payload
  | .arity2 fn => fun cmd => fn cmd.payload cmd.time

/-- Source: aimsun_entrypoint.py, `register_handler(type)` applied to a
handler `fn`: build the wrapper for `fn`'s arity and execute
`_HANDLERS[type] = wrapper` — an unconditional dict assignment with no check
for an existing entry. -/
def register_handler (t : CommandType) (fn : RawHandler) (handlers : Handlers) : Handlers :=
  fun k => if k = t then some (wrapHandler fn) else handlers k

/-- The auto-removal command
`MeasureRemoveCmd(time=ends_at, payload=MeasureRemoveDto(id_action=action_id))`
constructed inside `_measure_create`. -/
def mkMeasureRemoveCmd (ends_at : PyFloat) (action_id : Int) : CommandBase :=
  ⟨.MEASURE_REMOVE, ends_at, .measureRemove ⟨action_id⟩⟩

/-- Source: aimsun_entrypoint.py, `_measure_create(payload, starts_at)`.
The call `_apply_measure(m)` runs an external simulator action; its `Result`
is the oracle argument `applyRes` (every registered measure variant returns
`Result.ok(action_id, …)` on success and `Result.err(…)` when the underlying
`AKI…` call raises).  `sched_present` models `_SCHEDULE is not None`.  The
auto-removal is pushed when
`result.is_ok() and m.duration and m.duration > 0 and _SCHEDULE is not None`
(`m.duration` is falsy when `None` or `0`).  Constructing the
`MeasureRemoveDto` validates `id_action > 0`, so a missing or non-positive
action id raises out of the handler at that point, with nothing pushed. -/
def _measure_create (applyRes : Result) (sched_present : Bool)
    (payload : MeasureCreateDto) (starts_at : PyFloat) : HandlerReturn :=
  match payload.root.duration with
  | none => ⟨[], .ok (some applyRes)⟩
  | some d =>
    if applyRes.is_ok = true ∧ d ≠ ((0 : ℚ) : PyFloat) ∧ ((0 : ℚ) : PyFloat) < d
        ∧ sched_present = true then
      match applyRes.value with
      | some action_id =>
        if 0 < action_id then
          ⟨[mkMeasureRemoveCmd (starts_at + d) action_id], .ok (some applyRes)⟩
        else ⟨[], .error ()⟩
      | none => ⟨[], .error ()⟩
    else ⟨[], .ok (some applyRes)⟩

/-- Classification of one `_execute` call, as recorded by its logging. -/
inductive ExecOutcome
  | noHandler
  | raised
  | okResult (r : Result)
  | errResult (r : Result)
  | nonResult
deriving DecidableEq

/-- Source: aimsun_entrypoint.py, `_execute(cmd)` — look the handler up
(absent: warn and return), run it inside the `try`/`except` failure
boundary, and classify its outcome.  The function is total: every handler
failure terminates inside `_execute`; nothing propagates to the caller.
Returned alongside the classification are the commands point the handler
pushed into the schedule before finishing, which the calling loop applies. -/
def _execute (handlers : Handlers) (cmd : CommandBase) : ExecOutcome × List CommandBase :=
  match handlers cmd.command with
  | none => (.noHandler, [])
  | some h =>
    let ret := h cmd
    match ret.retval with
    | .error _ => (.raised, ret.pushes)
    | .ok none => (.nonResult, ret.pushes)
    | .ok (some r) => (if r.is_ok then .okResult r else .errResult r, ret.pushes)

/-- One pull on the `ready(up_to)` generator: the `while` condition
`heap and heap[0][0] <= up_to` re-checked against the current heap root,
then a pop.  This is the re-check the generator performs after every yield,
so entries pushed reentrantly since the previous pop are seen. -/
def Schedule.popDue (s : Schedule) (up_to : PyFloat) : Option (CommandBase × Schedule) :=
  match s.heap with
  | [] => none
  | e :: rest => if e.1 ≤ up_to then some (e.2.2, { s with heap := rest }) else none

/-- A trace record of the `_process_schedule` loop: the executed command, its
classification, and the commands its handler pushed reentrantly. -/
abbrev SchedTrace := List (CommandBase × ExecOutcome × List CommandBase)

/-- The `for cmd in _SCHEDULE.ready(up_to): _execute(cmd)` loop of
`_process_schedule` (aimsun_entrypoint.py), with the generator's per-pop
re-check of the heap root interleaved with handler execution: each iteration
pops the due root, runs the handler (whose pushes land in the live heap),
and re-checks.  `fuel` bounds the number of iterations; a handler that keeps
pushing due commands makes the source loop forever, which `none` models. -/
def processScheduleLoop (handlers : Handlers) (up_to : PyFloat) :
    ℕ → Schedule → Option (SchedTrace × Schedule)
  | 0, _ => none
  | fuel + 1, s =>
    match s.popDue up_to with
    | none => some ([], s)
    | some (c, s1) =>
      match processScheduleLoop handlers up_to fuel
          ((_execute handlers c).2.foldl Schedule.push s1) with
      | none => none
      | some (tr, sf) =>
        some ((c, (_execute handlers c).1, (_execute handlers c).2) :: tr, sf)

/-- Source: aimsun_entrypoint.py, `_process_schedule(up_to)`, including its
`if not _SCHEDULE: return` guard: `_SCHEDULE` is falsy both when unset and
when the heap is empty (`Schedule.__bool__`), in which case the function
returns before creating the generator. -/
def _process_schedule (handlers : Handlers) (up_to : PyFloat) (fuel : ℕ) (s : Schedule) :
    Option (SchedTrace × Schedule) :=
  if s.heap.isEmpty then some ([], s)
  else processScheduleLoop handlers up_to fuel s

/-- One event of the `_process_ipc` loop over drained transport messages. -/
inductive IpcEvent
  | decodeFailed
  | executed (cmd : CommandBase) (o : ExecOutcome)
  | deferred (cmd : CommandBase)
deriving DecidableEq

/-- The per-message body of `_process_ipc`: each raw message is decoded with
`Command.model_validate` (an `Except ValErr CommandBase` models the decode
outcome); a failure is caught, logged and skipped; a decoded command with
`cmd.time <= current_time` is executed at once (its handler pushes landing in
the schedule), otherwise it is pushed for a future step. -/
def processIpcLoop (handlers : Handlers) (current_time : PyFloat) :
    List (Except ValErr CommandBase) → Schedule → List IpcEvent × Schedule
  | [], s => ([], s)
  | msg :: rest, s =>
    match msg with
    | .error _ =>
      ((.decodeFailed :: (processIpcLoop handlers current_time rest s).1),
       (processIpcLoop handlers current_time rest s).2)
    | .ok cmd =>
      if cmd.time ≤ current_time then
        ((.executed cmd (_execute handlers cmd).1 ::
            (processIpcLoop handlers current_time rest
              ((_execute handlers cmd).2.foldl Schedule.push s)).1),
         (processIpcLoop handlers current_time rest
            ((_execute handlers cmd).2.foldl Schedule.push s)).2)
      else
        ((.deferred cmd :: (processIpcLoop handlers current_time rest (s.push cmd)).1),
         (processIpcLoop handlers current_time rest (s.push cmd)).2)

/-- Source: aimsun_entrypoint.py, `_process_ipc(current_time)`.  The guards
come first: `if not _SERVER: return` (modelled by `server_present`), then
`if not _SCHEDULE: return` — note that `Schedule.__bool__` is heap
non-emptiness, so an EMPTY schedule makes `_process_ipc` return without
draining the transport at all. -/
def _process_ipc (handlers : Handlers) (server_present : Bool)
    (incoming : List (Except ValErr CommandBase)) (current_time : PyFloat)
    (s : Schedule) : List IpcEvent × Schedule :=
  if server_present = false then ([], s)
  else if s.heap.isEmpty then ([], s)
  else processIpcLoop handlers current_time incoming s

/-- Source: aimsun_entrypoint.py, `AAPIManage(time, timeSta, timTrans,
acicle)` — the per-step callback body: `_process_ipc(current_time=timeSta)`
first, then `_process_schedule(up_to=timeSta)` on the schedule it left. -/
def AAPIManage (handlers : Handlers) (server_present : Bool)
    (incoming : List (Except ValErr CommandBase)) (timeSta : PyFloat)
    (fuel : ℕ) (s : Schedule) : Option (List IpcEvent × SchedTrace × Schedule) :=
  let r := _process_ipc handlers server_present incoming timeSta s
  match _process_schedule handlers timeSta fuel r.2 with
  | none => none
  | some (schedTr, s2) => some (r.1, schedTr, s2)

/-- Python exceptions observable on the modelled code paths. -/
inductive PyErr
  | attributeError
  | validationError (errs : List ValErr)
deriving DecidableEq

/-- Source: server/ipc.py, `ServerProcess` state.  `proc` models
`self._proc` — `none` is `self._proc is None`, `some alive` a process handle
whose `is_alive()` currently returns `alive` (process liveness is decided by
the external OS; it enters the model as the stored flag).  `queue_present`
models `self.queue is not None`.  `spawned` counts the
`mp.Process(...).start()` calls made so far; it is an observation recorded so
that claims about spawning can be stated and does not influence behaviour. -/
structure ServerProcess where
  proc : Option Bool
  queue_present : Bool
  spawned : ℕ
deriving DecidableEq

/-- Source: server/ipc.py, `ServerProcess.__init__` — a fresh queue and no
process handle. -/
def ServerProcess.init : ServerProcess := ⟨none, true, 0⟩

/-- Source: server/ipc.py, `ServerProcess.start` — construct a new
`mp.Process`, start it, and overwrite `self._proc` with its handle.  There is
no check whether a previous process is still running and no early return. -/
def ServerProcess.start (sp : ServerProcess) : ServerProcess :=
  { sp with proc := some true, spawned := sp.spawned + 1 }

/-- Source: server/ipc.py, `ServerProcess.stop(timeout)` — terminate and
join only when a live handle exists, then unconditionally
`self._proc.close(); self._proc = None; self.queue.close();
self.queue.join_thread(); self.queue = None`.  When `self._proc` is `None`
(never started, or already stopped) the attribute access
`self._proc.close()` raises `AttributeError`; likewise `self.queue.close()`
when the queue is gone. -/
def ServerProcess.stop (sp : ServerProcess) : Except PyErr ServerProcess :=
  match sp.proc with
  | none => .error .attributeError
  | some _ =>
    if sp.queue_present then .ok ⟨none, false, sp.spawned⟩
    else .error .attributeError

/-- Source: common/config.py via common/models.py,
`ScheduleRoot.model_validate(raw)` applied to one schedule chunk: pydantic
validates every entry of the list, collects one diagnostic per failing
entry, and raises a `ValidationError` carrying them if any entry failed;
only when every entry validates does it return the list.  Chunk validation
is therefore atomic. -/
def scheduleRootValidate (raw : List CommandBase) : Except PyErr (List CommandBase) :=
  let errs := raw.filterMap (fun c =>
    match validateCommand c with
    | .ok _ => none
    | .error e => some e)
  if errs.isEmpty then .ok raw else .error (.validationError errs)

/-- Source: common/config.py line 103, the call `schedule.extend(validated)`
inside `_try_insert`.  The `Schedule` class (common/schedule.py) defines no
method named `extend`, so this attribute lookup raises `AttributeError` on
every call. -/
def scheduleExtend (_s : Schedule) (_items : List CommandBase) : Except PyErr Schedule :=
  .error .attributeError

/-- Source: common/config.py, `_try_insert(raw, label)`: validate the chunk;
on success call `schedule.extend` (see `scheduleExtend`); a
`ValidationError` is caught and its per-entry diagnostics appended to
`errors`, while any other exception — in particular the `AttributeError`
from the missing `extend` — propagates out of `_parse_schedule`. -/
def tryInsert (raw : List CommandBase) (s : Schedule) (errors : List ValErr) :
    Except PyErr (Schedule × List ValErr) :=
  match scheduleRootValidate raw with
  | .ok validated =>
    match scheduleExtend s validated with
    | .ok s' => .ok (s', errors)
    | .error e => .error e
  | .error (.validationError errs) => .ok (s, errors ++ errs)
  | .error e => .error e

/-- Source: common/config.py, `AppConfig._parse_schedule` — fold
`_try_insert` over the schedule chunks (inline lists and loaded files are
both plain lists of raw entries by the time `_try_insert` sees them),
starting from an empty schedule and no diagnostics; an uncaught exception
aborts the whole load. -/
def parseSchedule (chunks : List (List CommandBase)) : Except PyErr (Schedule × List ValErr) :=
  chunks.foldlM (fun st chunk => tryInsert chunk st.1 st.2) (Schedule.empty, [])

/-!  Supporting lemmas. -/

/-- Well-formedness of a schedule reachable through its public operations:
the heap is sorted under the heapq order, and every entry's first component
is the time of the command it carries (as `push` always arranges). -/
def Schedule.WF (s : Schedule) : Prop :=
  s.heap.Sorted entryLE ∧ ∀ e ∈ s.heap, e.1 = e.2.2.time

theorem Schedule.empty_WF : Schedule.empty.WF := by
  constructor
  · exact List.sorted_nil
  · intro e he
    simp [Schedule.empty] at he

theorem Schedule.push_heap_perm (s : Schedule) (cb : CommandBase) :
    (s.push cb).heap.Perm ((cb.time, s.order, cb) :: s.heap) :=
  List.perm_orderedInsert entryLE _ s.heap

theorem Schedule.push_WF (s : Schedule) (cb : CommandBase) (h : s.WF) : (s.push cb).WF := by
  constructor
  · exact h.1.orderedInsert _ _
  · intro e he
    rcases (List.mem_orderedInsert entryLE).mp he with rfl | he'
    · rfl
    · exact h.2 e he'

theorem Schedule.pushList_WF :
    ∀ (l : List CommandBase) (s : Schedule), s.WF → (l.foldl Schedule.push s).WF := by
  intro l
  induction l with
  | nil => intro s h; exact h
  | cons c cs ih => intro s h; exact ih (s.push c) (s.push_WF c h)

/-- The entries produced by pushing `cs` starting at sequence number `i`:
entry `(c.time, i + k, c)` for the k-th command of `cs`. -/
def enumEntries (i : ℕ) : List CommandBase → List Entry
  | [] => []
  | c :: cs => (c.time, i, c) :: enumEntries (i + 1) cs

theorem enumEntries_map_cmd (i : ℕ) :
    ∀ cs : List CommandBase, (enumEntries i cs).map Entry.cmd = cs := by
  intro cs
  induction cs generalizing i with
  | nil => rfl
  | cons c cs ih => simp [enumEntries, Entry.cmd, ih]

theorem enumEntries_map_seq :
    ∀ (cs : List CommandBase) (i : ℕ),
      (enumEntries i cs).map Entry.seq = List.range' i cs.length := by
  intro cs
  induction cs with
  | nil => intro i; rfl
  | cons c cs ih => intro i; simp [enumEntries, Entry.seq, List.range', ih]

theorem enumEntries_times (i : ℕ) :
    ∀ cs : List CommandBase, ∀ e ∈ enumEntries i cs, e.1 = e.2.2.time := by
  intro cs
  induction cs generalizing i with
  | nil => intro e he; simp [enumEntries] at he
  | cons c cs ih =>
    intro e he
    rcases (List.mem_cons).mp he with rfl | he'
    · rfl
    · exact ih (i + 1) e he'

theorem foldl_push_perm :
    ∀ (cs : List CommandBase) (s : Schedule),
      (cs.foldl Schedule.push s).heap.Perm (s.heap ++ enumEntries s.order cs) ∧
      (cs.foldl Schedule.push s).order = s.order + cs.length := by
  intro cs
  induction cs with
  | nil => intro s; simp [enumEntries]
  | cons c cs ih =>
    intro s
    have step : (List.foldl Schedule.push s (c :: cs)) = cs.foldl Schedule.push (s.push c) := rfl
    constructor
    · have h1 := (ih (s.push c)).1
      have h2 : ((s.push c).heap ++ enumEntries (s.push c).order cs).Perm
          (((c.time, s.order, c) :: s.heap) ++ enumEntries (s.order + 1) cs) :=
        (Schedule.push_heap_perm s c).append_right _
      have h3 : (((c.time, s.order, c) :: s.heap) ++ enumEntries (s.order + 1) cs).Perm
          (s.heap ++ enumEntries s.order (c :: cs)) := by
        show ((c.time, s.order, c) :: (s.heap ++ enumEntries (s.order + 1) cs)).Perm _
        exact List.perm_middle.symm
      rw [step]
      exact h1.trans (h2.trans h3)
    · rw [step, (ih (s.push c)).2]
      simp [Schedule.push]
      omega

theorem ofItems_WF (cs : List CommandBase) : (Schedule.ofItems cs).WF :=
  Schedule.pushList_WF cs Schedule.empty Schedule.empty_WF

theorem ofItems_heap_perm (cs : List CommandBase) :
    (Schedule.ofItems cs).heap.Perm (enumEntries 0 cs) := by
  have := (foldl_push_perm cs Schedule.empty).1
  simpa [Schedule.empty, Schedule.ofItems] using this

theorem readyDrain_append (up_to : PyFloat) :
    ∀ l : List Entry, (readyDrain up_to l).1 ++ (readyDrain up_to l).2 = l := by
  intro l
  induction l with
  | nil => rfl
  | cons e rest ih =>
    by_cases h : e.1 ≤ up_to <;> simp [readyDrain, h, ih]

theorem readyDrain_fst_le (up_to : PyFloat) :
    ∀ l : List Entry, ∀ e ∈ (readyDrain up_to l).1, e.1 ≤ up_to := by
  intro l
  induction l with
  | nil => intro e he; simp [readyDrain] at he
  | cons a rest ih =>
    intro e he
    by_cases h : a.1 ≤ up_to
    · simp [readyDrain, h] at he
      rcases he with rfl | he'
      · exact h
      · exact ih e he'
    · simp [readyDrain, h] at he

theorem readyDrain_snd_not_le (up_to : PyFloat) :
    ∀ l : List Entry, l.Sorted entryLE → ∀ e ∈ (readyDrain up_to l).2, ¬ e.1 ≤ up_to := by
  intro l
  induction l with
  | nil => intro _ e he; simp [readyDrain] at he
  | cons a rest ih =>
    intro hs e he
    by_cases h : a.1 ≤ up_to
    · simp [readyDrain, h] at he
      exact ih hs.of_cons e he
    · simp [readyDrain, h] at he
      rcases he with rfl | he'
      · exact h
      · have hle : entryLE a e := (List.pairwise_cons.mp hs).1 e he'
        intro hcon
        rcases hle with hlt | ⟨heq, _⟩
        · exact h (hlt.le.trans hcon)
        · exact h (heq ▸ hcon)

theorem readyDrain_top : ∀ l : List Entry, readyDrain ⊤ l = (l, []) := by
  intro l
  induction l with
  | nil => rfl
  | cons e rest ih => simp [readyDrain, le_top, ih]

theorem entryLE_time_le {a b : Entry} (h : entryLE a b) : a.1 ≤ b.1 := by
  rcases h with h | ⟨h, _⟩
  · exact h.le
  · exact h.le

/-- C1: for every sequence of pushes into the Schedule, consuming
`ready(+inf)` yields every pushed command, in non-decreasing time order,
with equal times resolved by push order.  The entry list drained from the
heap is a permutation of `enumEntries 0 cbs` — the pushed commands tagged
with their push position as sequence number — it is non-decreasing in time,
any two drained entries with equal times appear in strictly increasing
sequence (= push) order, and `Schedule.ready` yields exactly the commands of
those entries in that order. -/
theorem c1_ready_inf_yields_sorted_stable (cbs : List CommandBase) :
    ((readyDrain ⊤ (Schedule.ofItems cbs).heap).1).Perm (enumEntries 0 cbs)
    ∧ ((readyDrain ⊤ (Schedule.ofItems cbs).heap).1).Pairwise (fun a b => a.1 ≤ b.1)
    ∧ ((readyDrain ⊤ (Schedule.ofItems cbs).heap).1).Pairwise
        (fun a b => a.1 = b.1 → a.2.1 < b.2.1)
    ∧ ((Schedule.ofItems cbs).ready ⊤).1 =
        ((readyDrain ⊤ (Schedule.ofItems cbs).heap).1).map Entry.cmd := by
  have hdrain : readyDrain ⊤ (Schedule.ofItems cbs).heap = ((Schedule.ofItems cbs).heap, []) :=
    readyDrain_top _
  have hperm : ((readyDrain ⊤ (Schedule.ofItems cbs).heap).1).Perm (enumEntries 0 cbs) := by
    rw [hdrain]
    exact ofItems_heap_perm cbs
  have hsorted : ((readyDrain ⊤ (Schedule.ofItems cbs).heap).1).Sorted entryLE := by
    rw [hdrain]
    exact (ofItems_WF cbs).1
  have hnodupseq : ((readyDrain ⊤ (Schedule.ofItems cbs).heap).1).Pairwise
      (fun a b => a.2.1 ≠ b.2.1) := by
    have h1 : ((enumEntries 0 cbs).map Entry.seq).Nodup := by
      rw [enumEntries_map_seq]
      exact List.nodup_range' _ _
    have h2 : (((readyDrain ⊤ (Schedule.ofItems cbs).heap).1).map Entry.seq).Nodup :=
      ((hperm.map Entry.seq).nodup_iff).mpr h1
    have h3 := List.pairwise_map.mp h2
    exact h3.imp (fun h => h)
  refine ⟨hperm, hsorted.imp entryLE_time_le, ?_, rfl⟩
  have hand := hsorted.and hnodupseq
  refine hand.imp ?_
  rintro a b ⟨hab, hne⟩ heq
  rcases hab with hlt | ⟨_, hle⟩
  · exact absurd heq (ne_of_lt hlt)
  · exact lt_of_le_of_ne hle hne

theorem sorted_head_not_le {up_to : PyFloat} {a : Entry} {rest : List Entry}
    (hs : (a :: rest).Sorted entryLE) (h : ¬ a.1 ≤ up_to) :
    ∀ e ∈ a :: rest, ¬ e.1 ≤ up_to := by
  intro e he
  rcases (List.mem_cons).mp he with rfl | he'
  · exact h
  · have hle : entryLE a e := (List.pairwise_cons.mp hs).1 e he'
    intro hcon
    exact h ((entryLE_time_le hle).trans hcon)

theorem popDue_none_spec (s : Schedule) (up_to : PyFloat)
    (hs : s.heap.Sorted entryLE) (h : s.popDue up_to = none) :
    ∀ e ∈ s.heap, ¬ e.1 ≤ up_to := by
  intro e he
  unfold Schedule.popDue at h
  rcases hh : s.heap with _ | ⟨a, rest⟩
  · rw [hh] at he; simp at he
  · rw [hh] at h he hs
    by_cases hc : a.1 ≤ up_to
    · simp [hc] at h
    · exact sorted_head_not_le hs hc e he

theorem popDue_some_spec (s : Schedule) (up_to : PyFloat) (c : CommandBase)
    (s1 : Schedule) (h : s.popDue up_to = some (c, s1)) :
    ∃ e rest, s.heap = e :: rest ∧ e.1 ≤ up_to ∧ c = e.2.2 ∧ s1 = ⟨rest, s.order⟩ := by
  unfold Schedule.popDue at h
  rcases hh : s.heap with _ | ⟨a, rest⟩
  · rw [hh] at h; simp at h
  · rw [hh] at h
    by_cases hc : a.1 ≤ up_to
    · simp only [hc, if_true, Option.some.injEq, Prod.mk.injEq] at h
      exact ⟨a, rest, rfl, hc, h.1.symm, h.2.symm⟩
    · simp [hc] at h

/-- State of the dispatcher loop after a run of `processScheduleLoop`:
the final schedule is well-formed, holds only entries that are not yet due,
the command multiset is conserved (initial heap plus everything handlers
pushed equals the executed commands plus the final heap), every executed
command was due, and every trace record is exactly the `_execute` outcome of
its command. -/
theorem processScheduleLoop_spec (handlers : Handlers) (up_to : PyFloat) :
    ∀ (fuel : ℕ) (s : Schedule) (tr : SchedTrace) (sf : Schedule),
      s.WF →
      processScheduleLoop handlers up_to fuel s = some (tr, sf) →
      sf.WF
      ∧ (∀ e ∈ sf.heap, ¬ e.1 ≤ up_to)
      ∧ ((s.heap.map Entry.cmd ++ tr.flatMap fun p => p.2.2)).Perm
          (tr.map (fun p => p.1) ++ sf.heap.map Entry.cmd)
      ∧ (∀ p ∈ tr, p.1.time ≤ up_to)
      ∧ (∀ p ∈ tr, (p.2.1, p.2.2) = _execute handlers p.1) := by
  intro fuel
  induction fuel with
  | zero =>
    intro s tr sf hwf h
    simp [processScheduleLoop] at h
  | succ fuel ih =>
    intro s tr sf hwf h
    rw [processScheduleLoop] at h
    cases hpop : s.popDue up_to with
    | none =>
      rw [hpop] at h
      simp only [Option.some.injEq, Prod.mk.injEq] at h
      obtain ⟨rfl, rfl⟩ := h
      refine ⟨hwf, popDue_none_spec s up_to hwf.1 hpop, ?_, ?_, ?_⟩
      · simp
      · simp
      · simp
    | some cs1 =>
      obtain ⟨c, s1⟩ := cs1
      rw [hpop] at h
      dsimp only at h
      obtain ⟨e, rest, hheap, hle, hc, hs1⟩ := popDue_some_spec s up_to c s1 hpop
      subst hs1
      cases hrec : processScheduleLoop handlers up_to fuel
          ((_execute handlers c).2.foldl Schedule.push (Schedule.mk rest s.order)) with
      | none => rw [hrec] at h; simp at h
      | some trsf =>
        obtain ⟨tr', sf'⟩ := trsf
        rw [hrec] at h
        simp only [Option.some.injEq, Prod.mk.injEq] at h
        obtain ⟨rfl, rfl⟩ := h
        have hs1wf : (Schedule.mk rest s.order).WF := by
          constructor
          · have := hwf.1
            rw [hheap] at this
            exact this.of_cons
          · intro x hx
            exact hwf.2 x (by rw [hheap]; exact List.mem_cons_of_mem _ hx)
        have hs2wf : ((_execute handlers c).2.foldl Schedule.push (Schedule.mk rest s.order)).WF :=
          Schedule.pushList_WF _ _ hs1wf
        obtain ⟨hwfF, hnle, hperm', htr', hex'⟩ := ih _ tr' sf' hs2wf hrec
        have hcc : Entry.cmd e = c := hc.symm
        have hct : c.time = e.1 := by
          rw [hc]
          exact (hwf.2 e (by rw [hheap]; exact List.mem_cons_self e rest)).symm
        refine ⟨hwfF, hnle, ?_, ?_, ?_⟩
        · -- conservation
          have hs2perm : (((_execute handlers c).2.foldl Schedule.push
              (Schedule.mk rest s.order)).heap.map
              Entry.cmd).Perm (rest.map Entry.cmd ++ (_execute handlers c).2) := by
            have h1 := (foldl_push_perm (_execute handlers c).2 (Schedule.mk rest s.order)).1
            have h2 := h1.map Entry.cmd
            rw [List.map_append, enumEntries_map_cmd] at h2
            exact h2
          have hstep1 : ((rest.map Entry.cmd ++ (_execute handlers c).2) ++
              tr'.flatMap (fun p => p.2.2)).Perm
              ((((_execute handlers c).2.foldl Schedule.push
                (Schedule.mk rest s.order)).heap.map Entry.cmd) ++
                tr'.flatMap (fun p => p.2.2)) :=
            hs2perm.symm.append_right _
          have hstep2 := hstep1.trans hperm'
          have hgoal : ((s.heap.map Entry.cmd ++
              (((c, (_execute handlers c).1, (_execute handlers c).2) :: tr').flatMap
                fun p => p.2.2))).Perm
              ((((c, (_execute handlers c).1, (_execute handlers c).2) :: tr').map
                (fun p => p.1)) ++ sf'.heap.map Entry.cmd) := by
            rw [hheap]
            simp only [List.flatMap_cons, List.map_cons, List.cons_append]
            rw [hcc]
            refine List.Perm.cons c ?_
            rw [← List.append_assoc]
            exact hstep2
          exact hgoal
        · intro p hp
          rcases (List.mem_cons).mp hp with rfl | hp'
          · simpa [hct] using hle
          · exact htr' p hp'
        · intro p hp
          rcases (List.mem_cons).mp hp with rfl | hp'
          · rfl
          · exact hex' p hp'

/-- The same guarantees for the `_process_schedule` wrapper (its
empty-schedule guard returns at once with nothing executed). -/
theorem _process_schedule_spec (handlers : Handlers) (up_to : PyFloat)
    (fuel : ℕ) (s : Schedule) (tr : SchedTrace) (sf : Schedule)
    (hwf : s.WF) (h : _process_schedule handlers up_to fuel s = some (tr, sf)) :
    sf.WF
    ∧ (∀ e ∈ sf.heap, ¬ e.1 ≤ up_to)
    ∧ ((s.heap.map Entry.cmd ++ tr.flatMap fun p => p.2.2)).Perm
        (tr.map (fun p => p.1) ++ sf.heap.map Entry.cmd)
    ∧ (∀ p ∈ tr, p.1.time ≤ up_to)
    ∧ (∀ p ∈ tr, (p.2.1, p.2.2) = _execute handlers p.1) := by
  unfold _process_schedule at h
  by_cases he : s.heap.isEmpty
  · rw [if_pos he] at h
    simp only [Option.some.injEq, Prod.mk.injEq] at h
    obtain ⟨rfl, rfl⟩ := h
    have hnil : s.heap = [] := List.isEmpty_iff.mp he
    refine ⟨hwf, ?_, ?_, ?_, ?_⟩
    · intro e heap; rw [hnil] at heap; simp at heap
    · simp
    · simp
    · simp
  · rw [if_neg he] at h
    exact processScheduleLoop_spec handlers up_to fuel s tr sf hwf h

theorem push_mem_cmds (s : Schedule) (cb : CommandBase) {c : CommandBase}
    (h : c ∈ s.heap.map Entry.cmd) : c ∈ (s.push cb).heap.map Entry.cmd := by
  have hp := (s.push_heap_perm cb).map Entry.cmd
  exact hp.mem_iff.mpr (List.mem_cons_of_mem _ h)

theorem push_self_mem (s : Schedule) (cb : CommandBase) :
    cb ∈ (s.push cb).heap.map Entry.cmd := by
  have hp := (s.push_heap_perm cb).map Entry.cmd
  exact hp.mem_iff.mpr (List.mem_cons_self _ _)

theorem pushList_mem_cmds :
    ∀ (l : List CommandBase) (s : Schedule) {c : CommandBase},
      c ∈ s.heap.map Entry.cmd → c ∈ (l.foldl Schedule.push s).heap.map Entry.cmd := by
  intro l
  induction l with
  | nil => intro s c h; exact h
  | cons x xs ih => intro s c h; exact ih (s.push x) (push_mem_cmds s x h)

theorem processIpcLoop_snd_WF (handlers : Handlers) (t : PyFloat) :
    ∀ (msgs : List (Except ValErr CommandBase)) (s : Schedule),
      s.WF → (processIpcLoop handlers t msgs s).2.WF := by
  intro msgs
  induction msgs with
  | nil => intro s h; exact h
  | cons msg rest ih =>
    intro s h
    cases msg with
    | error e => exact ih s h
    | ok cmd =>
      by_cases hc : cmd.time ≤ t
      · simp only [processIpcLoop, hc, if_true]
        exact ih _ (Schedule.pushList_WF _ s h)
      · simp only [processIpcLoop, hc, if_false]
        exact ih _ (s.push_WF cmd h)

theorem processIpcLoop_mem_mono (handlers : Handlers) (t : PyFloat) :
    ∀ (msgs : List (Except ValErr CommandBase)) (s : Schedule) {c : CommandBase},
      c ∈ s.heap.map Entry.cmd →
      c ∈ (processIpcLoop handlers t msgs s).2.heap.map Entry.cmd := by
  intro msgs
  induction msgs with
  | nil => intro s c h; exact h
  | cons msg rest ih =>
    intro s c h
    cases msg with
    | error e => exact ih s h
    | ok cmd =>
      by_cases hc : cmd.time ≤ t
      · simp only [processIpcLoop, hc, if_true]
        exact ih _ (pushList_mem_cmds _ s h)
      · simp only [processIpcLoop, hc, if_false]
        exact ih _ (push_mem_cmds s cmd h)

/-- Events of the transport-drain loop: an `executed` event carries a command
that was due at the step clock, and a `deferred` event carries a command that
was not due and now sits in the schedule the loop returns. -/
theorem processIpcLoop_events (handlers : Handlers) (t : PyFloat) :
    ∀ (msgs : List (Except ValErr CommandBase)) (s : Schedule),
      (∀ cmd o, IpcEvent.executed cmd o ∈ (processIpcLoop handlers t msgs s).1 →
        cmd.time ≤ t)
      ∧ (∀ cmd, IpcEvent.deferred cmd ∈ (processIpcLoop handlers t msgs s).1 →
          ¬ cmd.time ≤ t ∧ cmd ∈ (processIpcLoop handlers t msgs s).2.heap.map Entry.cmd) := by
  intro msgs
  induction msgs with
  | nil =>
    intro s
    constructor
    · intro cmd o h; simp [processIpcLoop] at h
    · intro cmd h; simp [processIpcLoop] at h
  | cons msg rest ih =>
    intro s
    cases msg with
    | error e =>
      constructor
      · intro cmd o h
        simp only [processIpcLoop, List.mem_cons] at h
        rcases h with h | h
        · exact absurd h (by simp)
        · exact (ih s).1 cmd o h
      · intro cmd h
        simp only [processIpcLoop, List.mem_cons] at h
        rcases h with h | h
        · exact absurd h (by simp)
        · exact (ih s).2 cmd h
    | ok cmd0 =>
      by_cases hc : cmd0.time ≤ t
      · constructor
        · intro cmd o h
          simp only [processIpcLoop, hc, if_true, List.mem_cons] at h
          rcases h with h | h
          · obtain ⟨rfl, -⟩ := by
              have := h
              simp only [IpcEvent.executed.injEq] at this
              exact this
            exact hc
          · exact (ih _).1 cmd o h
        · intro cmd h
          simp only [processIpcLoop, hc, if_true, List.mem_cons] at h
          simp only [processIpcLoop, hc, if_true]
          rcases h with h | h
          · exact absurd h (by simp)
          · exact (ih _).2 cmd h
      · constructor
        · intro cmd o h
          simp only [processIpcLoop, hc, if_false, List.mem_cons] at h
          rcases h with h | h
          · exact absurd h (by simp)
          · exact (ih _).1 cmd o h
        · intro cmd h
          simp only [processIpcLoop, hc, if_false, List.mem_cons] at h
          simp only [processIpcLoop, hc, if_false]
          rcases h with h | h
          · have hcmd : cmd = cmd0 := by
              simpa [IpcEvent.deferred.injEq] using h
            subst hcmd
            exact ⟨hc, processIpcLoop_mem_mono handlers t rest _ (push_self_mem s cmd)⟩
          · exact (ih _).2 cmd h

/-- A successful `AAPIManage` run is exactly `_process_ipc` followed by
`_process_schedule` on the schedule the transport phase left behind. -/
theorem AAPIManage_decompose (handlers : Handlers) (server_present : Bool)
    (incoming : List (Except ValErr CommandBase)) (t : PyFloat) (fuel : ℕ)
    (s : Schedule) (ipcTr : List IpcEvent) (schedTr : SchedTrace) (s2 : Schedule)
    (h : AAPIManage handlers server_present incoming t fuel s = some (ipcTr, schedTr, s2)) :
    ipcTr = (_process_ipc handlers server_present incoming t s).1
    ∧ _process_schedule handlers t fuel
        ((_process_ipc handlers server_present incoming t s).2) = some (schedTr, s2) := by
  unfold AAPIManage at h
  dsimp only at h
  cases hps : _process_schedule handlers t fuel
      ((_process_ipc handlers server_present incoming t s).2) with
  | none => rw [hps] at h; simp at h
  | some pair =>
    obtain ⟨st, s2'⟩ := pair
    rw [hps] at h
    simp only [Option.some.injEq, Prod.mk.injEq] at h
    obtain ⟨rfl, rfl, rfl⟩ := h
    exact ⟨rfl, rfl⟩

/-!  Claim theorems. -/

/-- C10: when handlers push new entries reentrantly while a `ready(up_to)`
iteration is being consumed (the `_process_schedule` loop), any pushed
command with time ≤ up_to is yielded by that same iteration before it
finishes, because the loop re-checks the heap root after every pop; a pushed
command with time > up_to is not yielded and remains in the schedule the
iteration leaves behind.  `tr.flatMap (fun p => p.2.2)` is the list of all
commands pushed by handlers during the run and `tr.map (fun p => p.1)` the
list of commands yielded and executed. -/
theorem c10_reentrant_push_same_iteration (handlers : Handlers) (up_to : PyFloat)
    (fuel : ℕ) (s : Schedule) (tr : SchedTrace) (sf : Schedule)
    (hwf : s.WF) (hrun : processScheduleLoop handlers up_to fuel s = some (tr, sf)) :
    (∀ p ∈ tr, p.1.time ≤ up_to)
    ∧ (∀ c ∈ tr.flatMap (fun p => p.2.2), c.time ≤ up_to → c ∈ tr.map (fun p => p.1))
    ∧ (∀ c ∈ tr.flatMap (fun p => p.2.2), ¬ c.time ≤ up_to →
        c ∉ tr.map (fun p => p.1) ∧ c ∈ sf.heap.map Entry.cmd) := by
  obtain ⟨hwfF, hnle, hperm, htr, -⟩ :=
    processScheduleLoop_spec handlers up_to fuel s tr sf hwf hrun
  refine ⟨htr, ?_, ?_⟩
  · intro c hcflat hcle
    have hmem : c ∈ tr.map (fun p => p.1) ++ sf.heap.map Entry.cmd :=
      hperm.mem_iff.mp (List.mem_append.mpr (Or.inr hcflat))
    rcases List.mem_append.mp hmem with h1 | h2
    · exact h1
    · exfalso
      obtain ⟨e, he, rfl⟩ := List.mem_map.mp h2
      exact hnle e he (by rw [hwfF.2 e he]; exact hcle)
  · intro c hcflat hncle
    have hmem : c ∈ tr.map (fun p => p.1) ++ sf.heap.map Entry.cmd :=
      hperm.mem_iff.mp (List.mem_append.mpr (Or.inr hcflat))
    constructor
    · intro hcexec
      obtain ⟨p, hp, rfl⟩ := List.mem_map.mp hcexec
      exact hncle (htr p hp)
    · rcases List.mem_append.mp hmem with h1 | h2
      · exfalso
        obtain ⟨p, hp, rfl⟩ := List.mem_map.mp h1
        exact hncle (htr p hp)
      · exact h2

/-- Scenario for the C10 witness: a due command whose handler pushes one
still-due command and one not-yet-due command while the drain is running. -/
def w10cmdDue : CommandBase := ⟨.MEASURES_RESET, ((0 : ℚ) : PyFloat), .noPayload⟩

/-- The reentrantly pushed command that is still due (time 5 ≤ 10). -/
def w10cmdReent : CommandBase := ⟨.MEASURE_REMOVE, ((5 : ℚ) : PyFloat), .measureRemove ⟨1⟩⟩

/-- The reentrantly pushed command that is not due (time 20 > 10). -/
def w10cmdLate : CommandBase := ⟨.MEASURE_REMOVE, ((20 : ℚ) : PyFloat), .measureRemove ⟨2⟩⟩

/-- Handlers for the C10 witness: the due command's handler pushes the two
commands above; every other command is a no-op. -/
def w10handlers : Handlers := fun _ =>
  some (fun cmd =>
    if cmd = w10cmdDue then ⟨[w10cmdReent, w10cmdLate], .ok none⟩
    else ⟨[], .ok none⟩)

/-- The initial schedule for the C10 witness. -/
def w10sched : Schedule := Schedule.ofItems [w10cmdDue]

/-- Witness for C10 at a concrete run: the reentrantly pushed due command is
yielded in the same iteration; the not-yet-due one stays in the schedule. -/
theorem c10_witness :
    w10sched.WF
    ∧ processScheduleLoop w10handlers ((10 : ℚ) : PyFloat) 4 w10sched =
        some ([(w10cmdDue, .nonResult, [w10cmdReent, w10cmdLate]),
               (w10cmdReent, .nonResult, [])],
              ⟨[(((20 : ℚ) : PyFloat), 2, w10cmdLate)], 3⟩)
    ∧ w10cmdReent ∈ ([(w10cmdDue, ExecOutcome.nonResult, [w10cmdReent, w10cmdLate]),
        (w10cmdReent, ExecOutcome.nonResult, ([] : List CommandBase))] : SchedTrace).flatMap
          (fun p => p.2.2)
    ∧ w10cmdReent.time ≤ ((10 : ℚ) : PyFloat)
    ∧ w10cmdReent ∈ ([(w10cmdDue, ExecOutcome.nonResult, [w10cmdReent, w10cmdLate]),
        (w10cmdReent, ExecOutcome.nonResult, ([] : List CommandBase))] : SchedTrace).map
          (fun p => p.1)
    ∧ ¬ w10cmdLate.time ≤ ((10 : ℚ) : PyFloat)
    ∧ w10cmdLate ∉ ([(w10cmdDue, ExecOutcome.nonResult, [w10cmdReent, w10cmdLate]),
        (w10cmdReent, ExecOutcome.nonResult, ([] : List CommandBase))] : SchedTrace).map
          (fun p => p.1)
    ∧ w10cmdLate ∈ (Schedule.mk [(((20 : ℚ) : PyFloat), 2, w10cmdLate)] 3).heap.map
        Entry.cmd := by
  have hwf : w10sched.WF := by
    constructor
    · decide
    · decide
  have hrun : processScheduleLoop w10handlers ((10 : ℚ) : PyFloat) 4 w10sched =
      some ([(w10cmdDue, .nonResult, [w10cmdReent, w10cmdLate]),
             (w10cmdReent, .nonResult, [])],
            ⟨[(((20 : ℚ) : PyFloat), 2, w10cmdLate)], 3⟩) := by decide
  have hmain := c10_reentrant_push_same_iteration w10handlers ((10 : ℚ) : PyFloat) 4
    w10sched _ _ hwf hrun
  refine ⟨hwf, hrun, by decide, by decide, ?_, by decide, ?_, ?_⟩
  · exact hmain.2.1 w10cmdReent (by decide) (by decide)
  · exact (hmain.2.2 w10cmdLate (by decide) (by decide)).1
  · exact (hmain.2.2 w10cmdLate (by decide) (by decide)).2

/-- C4: handler failure is confined to the dispatcher.  Whatever every
handler does — raise, return a failing `Result`, or have no registration at
all — a `_process_schedule` run executes every command that was due in the
schedule (isolation: one command's failure never stops the next); every
trace record is exactly the `_execute` classification, and a command whose
kind has no registered handler is classified `noHandler` with nothing pushed
and no error — `_execute` is a total function, so no handler exception
propagates past it. -/
theorem c4_failures_isolated (handlers : Handlers) (up_to : PyFloat)
    (fuel : ℕ) (s : Schedule) (tr : SchedTrace) (sf : Schedule)
    (hwf : s.WF) (hrun : _process_schedule handlers up_to fuel s = some (tr, sf)) :
    (∀ e ∈ s.heap, e.1 ≤ up_to → e.2.2 ∈ tr.map (fun p => p.1))
    ∧ (∀ p ∈ tr, (p.2.1, p.2.2) = _execute handlers p.1)
    ∧ (∀ cmd : CommandBase, handlers cmd.command = none →
        _execute handlers cmd = (.noHandler, [])) := by
  obtain ⟨hwfF, hnle, hperm, htr, hex⟩ :=
    _process_schedule_spec handlers up_to fuel s tr sf hwf hrun
  refine ⟨?_, hex, ?_⟩
  · intro e he hle
    have hmem0 : e.2.2 ∈ s.heap.map Entry.cmd := List.mem_map.mpr ⟨e, he, rfl⟩
    have hmem : e.2.2 ∈ tr.map (fun p => p.1) ++ sf.heap.map Entry.cmd :=
      hperm.mem_iff.mp (List.mem_append.mpr (Or.inl hmem0))
    rcases List.mem_append.mp hmem with h1 | h2
    · exact h1
    · exfalso
      obtain ⟨e', he', heq⟩ := List.mem_map.mp h2
      refine hnle e' he' ?_
      rw [hwfF.2 e' he']
      show (Entry.cmd e').time ≤ up_to
      rw [heq]
      rw [← hwf.2 e he]
      exact hle
  · intro cmd h
    simp [_execute, h]

/-- Command whose handler raises, for the C4 witness. -/
def w4cmdFail : CommandBase :=
  ⟨.INCIDENT_REMOVE, ((0 : ℚ) : PyFloat), .incidentRemove ⟨1, 1, ((0 : ℚ) : PyFloat)⟩⟩

/-- Command due right after the failing one, for the C4 witness. -/
def w4cmdOk : CommandBase := ⟨.INCIDENTS_RESET, ((0 : ℚ) : PyFloat), .noPayload⟩

/-- Handlers for the C4 witness: incident-remove raises, incidents-reset
succeeds, and nothing is registered for the remaining kinds. -/
def w4handlers : Handlers := fun k =>
  if k = CommandType.INCIDENT_REMOVE then some (fun _ => ⟨[], .error ()⟩)
  else if k = CommandType.INCIDENTS_RESET then
    some (fun _ => ⟨[], .ok (some (Result.okRes none none))⟩)
  else none

/-- The initial schedule for the C4 witness. -/
def w4sched : Schedule := Schedule.ofItems [w4cmdFail, w4cmdOk]

/-- Witness for C4 at a concrete run: the first due command's handler
raises, yet the second due command still executes with an `Ok` outcome, and
a command of an unregistered kind is classified `noHandler`. -/
theorem c4_witness :
    w4sched.WF
    ∧ _process_schedule w4handlers ((0 : ℚ) : PyFloat) 3 w4sched =
        some ([(w4cmdFail, .raised, []),
               (w4cmdOk, .okResult (Result.okRes none none), [])], ⟨[], 2⟩)
    ∧ (((0 : ℚ) : PyFloat), 1, w4cmdOk) ∈ w4sched.heap
    ∧ (((0 : ℚ) : PyFloat) : PyFloat) ≤ ((0 : ℚ) : PyFloat)
    ∧ w4cmdOk ∈ ([(w4cmdFail, ExecOutcome.raised, ([] : List CommandBase)),
        (w4cmdOk, ExecOutcome.okResult (Result.okRes none none),
          ([] : List CommandBase))] : SchedTrace).map (fun p => p.1)
    ∧ w4handlers CommandType.POLICY_ACTIVATE = none
    ∧ _execute w4handlers ⟨.POLICY_ACTIVATE, ((0 : ℚ) : PyFloat), .policyTarget ⟨1⟩⟩ =
        (.noHandler, []) := by
  have hwf : w4sched.WF := by
    constructor
    · decide
    · decide
  have hrun : _process_schedule w4handlers ((0 : ℚ) : PyFloat) 3 w4sched =
      some ([(w4cmdFail, .raised, []),
             (w4cmdOk, .okResult (Result.okRes none none), [])], ⟨[], 2⟩) := by decide
  have hmain := c4_failures_isolated w4handlers ((0 : ℚ) : PyFloat) 3 w4sched _ _ hwf hrun
  have hnone : w4handlers CommandType.POLICY_ACTIVATE = none := rfl
  refine ⟨hwf, hrun, by decide, by decide, ?_, hnone, ?_⟩
  · exact hmain.1 (((0 : ℚ) : PyFloat), 1, w4cmdOk) (by decide) (by decide)
  · exact hmain.2.2 ⟨.POLICY_ACTIVATE, ((0 : ℚ) : PyFloat), .policyTarget ⟨1⟩⟩ hnone

instance : DecidableEq (List IpcEvent × SchedTrace × Schedule) := instDecidableEqProd

/-- The commands executed during one `AAPIManage` step, in chronological
order: `AAPIManage` runs the transport drain first and the schedule drain
second, so the transport phase's executions precede the schedule phase's. -/
def stepExecutedCmds (ipcTr : List IpcEvent) (schedTr : SchedTrace) : List CommandBase :=
  (ipcTr.filterMap fun ev =>
    match ev with
    | .executed c _ => some c
    | _ => none) ++ schedTr.map (fun p => p.1)

/-- Schedule entry due at the step clock, for the C2 counterexample. -/
def x2cmdSched : CommandBase := ⟨.INCIDENTS_RESET, ((0 : ℚ) : PyFloat), .noPayload⟩

/-- Transport message due at the step clock, for the C2 counterexample. -/
def x2cmdIpc : CommandBase := ⟨.POLICY_ACTIVATE, ((0 : ℚ) : PyFloat), .policyTarget ⟨1⟩⟩

/-- Trivial handlers for the C2 scenario. -/
def x2handlers : Handlers := fun _ => some (fun _ => ⟨[], .ok none⟩)

/-- Counterexample to C2 as stated: with a schedule entry due at the step
clock and a due transport message arriving in the same step, the step
executes the transport command BEFORE the schedule entry — the execution
order is `[x2cmdIpc, x2cmdSched]`, not the Schedule-phase-first order
`[x2cmdSched, x2cmdIpc]` the claim asserts (`AAPIManage` calls
`_process_ipc` before `_process_schedule`). -/
theorem c2_counterexample :
    AAPIManage x2handlers true [.ok x2cmdIpc] ((0 : ℚ) : PyFloat) 3
        (Schedule.ofItems [x2cmdSched]) =
      some ([.executed x2cmdIpc .nonResult], [(x2cmdSched, .nonResult, [])], ⟨[], 1⟩)
    ∧ stepExecutedCmds [.executed x2cmdIpc .nonResult] [(x2cmdSched, .nonResult, [])] =
        [x2cmdIpc, x2cmdSched]
    ∧ [x2cmdIpc, x2cmdSched] ≠ [x2cmdSched, x2cmdIpc] := by
  refine ⟨by decide, by decide, by decide⟩

/-- C2 (amended): in every simulation step with clock `t`, the step callback
first drains the Transport — provided the server handle is set and the
Schedule is non-empty (an empty Schedule skips the transport phase entirely,
because the `if not _SCHEDULE` guard tests heap emptiness) — executing each
freshly received command immediately when its time ≤ t and pushing it into
the Schedule otherwise; only then does it drain the Schedule, executing
every entry due at `t`, and the schedule it leaves holds only entries with
time > t. -/
theorem c2_amended_transport_first (handlers : Handlers)
    (incoming : List (Except ValErr CommandBase)) (t : PyFloat) (fuel : ℕ)
    (s : Schedule) (ipcTr : List IpcEvent) (schedTr : SchedTrace) (s2 : Schedule)
    (hwf : s.WF)
    (hrun : AAPIManage handlers true incoming t fuel s = some (ipcTr, schedTr, s2)) :
    ipcTr = (_process_ipc handlers true incoming t s).1
    ∧ _process_schedule handlers t fuel
        ((_process_ipc handlers true incoming t s).2) = some (schedTr, s2)
    ∧ (∀ cmd o, IpcEvent.executed cmd o ∈ ipcTr → cmd.time ≤ t)
    ∧ (∀ cmd, IpcEvent.deferred cmd ∈ ipcTr → ¬ cmd.time ≤ t ∧
        cmd ∈ (_process_ipc handlers true incoming t s).2.heap.map Entry.cmd)
    ∧ (∀ p ∈ schedTr, p.1.time ≤ t)
    ∧ (∀ e ∈ s2.heap, ¬ e.1 ≤ t)
    ∧ (s.heap = [] → ipcTr = []) := by
  obtain ⟨hipc, hps⟩ := AAPIManage_decompose handlers true incoming t fuel s
    ipcTr schedTr s2 hrun
  by_cases hempty : s.heap.isEmpty
  · have hipceq : _process_ipc handlers true incoming t s = ([], s) := by
      simp [_process_ipc, hempty]
    rw [hipceq] at hipc hps
    subst hipc
    obtain ⟨-, hnle2, -, htr2, -⟩ :=
      _process_schedule_spec handlers t fuel s schedTr s2 hwf hps
    refine ⟨by rw [hipceq], by rw [hipceq]; exact hps, ?_, ?_, htr2, hnle2, ?_⟩
    · intro cmd o h; simp at h
    · intro cmd h; simp at h
    · intro _; rfl
  · have hipceq : _process_ipc handlers true incoming t s =
        processIpcLoop handlers t incoming s := by
      simp [_process_ipc, hempty]
    have hwf1 : (_process_ipc handlers true incoming t s).2.WF := by
      rw [hipceq]
      exact processIpcLoop_snd_WF handlers t incoming s hwf
    obtain ⟨-, hnle2, -, htr2, -⟩ :=
      _process_schedule_spec handlers t fuel _ schedTr s2 hwf1 hps
    refine ⟨hipc, hps, ?_, ?_, htr2, hnle2, ?_⟩
    · intro cmd o h
      rw [hipc, hipceq] at h
      exact (processIpcLoop_events handlers t incoming s).1 cmd o h
    · intro cmd h
      rw [hipc, hipceq] at h
      have := (processIpcLoop_events handlers t incoming s).2 cmd h
      rw [hipceq]
      exact this
    · intro hnil
      exact absurd (List.isEmpty_iff.mpr hnil) hempty

/-- Witness for the amended C2 at the concrete step of the counterexample
scenario: both the transport-executed command and the schedule-executed
command were due at the step clock. -/
theorem c2_witness :
    (Schedule.ofItems [x2cmdSched]).WF
    ∧ AAPIManage x2handlers true [.ok x2cmdIpc] ((0 : ℚ) : PyFloat) 3
        (Schedule.ofItems [x2cmdSched]) =
      some ([.executed x2cmdIpc .nonResult], [(x2cmdSched, .nonResult, [])], ⟨[], 1⟩)
    ∧ x2cmdIpc.time ≤ ((0 : ℚ) : PyFloat)
    ∧ x2cmdSched.time ≤ ((0 : ℚ) : PyFloat) := by
  have hwf : (Schedule.ofItems [x2cmdSched]).WF := by
    constructor
    · decide
    · decide
  have hrun : AAPIManage x2handlers true [.ok x2cmdIpc] ((0 : ℚ) : PyFloat) 3
      (Schedule.ofItems [x2cmdSched]) =
      some ([.executed x2cmdIpc .nonResult], [(x2cmdSched, .nonResult, [])], ⟨[], 1⟩) := by
    decide
  have hmain := c2_amended_transport_first x2handlers [.ok x2cmdIpc]
    ((0 : ℚ) : PyFloat) 3 (Schedule.ofItems [x2cmdSched]) _ _ _ hwf hrun
  refine ⟨hwf, hrun, ?_, ?_⟩
  · exact hmain.2.2.1 x2cmdIpc .nonResult (by decide)
  · exact hmain.2.2.2.2.1 (x2cmdSched, .nonResult, []) (by decide)

/-- C3: a duration-bearing measure-create command that executes successfully
with effective start `starts_at` and duration `d > 0` pushes exactly one
measure-remove command, scheduled at `starts_at + d`, from inside the
dispatcher (`_measure_create` returns it in `pushes`, which the dispatch loop
pushes into the live schedule); when the underlying action fails, or when no
duration is given, nothing is pushed. -/
theorem c3_auto_removal_scheduling (applyRes : Result) (p : MeasureCreateDto)
    (starts_at : PyFloat) :
    (∀ (d : PyFloat) (a : Int), p.root.duration = some d → ((0 : ℚ) : PyFloat) < d →
      applyRes.status = .OK → applyRes.value = some a → 0 < a →
      _measure_create applyRes true p starts_at =
        ⟨[mkMeasureRemoveCmd (starts_at + d) a], .ok (some applyRes)⟩)
    ∧ (applyRes.status ≠ .OK →
      _measure_create applyRes true p starts_at = ⟨[], .ok (some applyRes)⟩)
    ∧ (p.root.duration = none →
      _measure_create applyRes true p starts_at = ⟨[], .ok (some applyRes)⟩) := by
  refine ⟨?_, ?_, ?_⟩
  · intro d a hd hdpos hst hval ha
    have hok : applyRes.is_ok = true := by
      simp [Result.is_ok, hst]
    unfold _measure_create
    rw [hd]
    dsimp only
    rw [if_pos ⟨hok, ne_of_gt hdpos, hdpos, rfl⟩, hval]
    dsimp only
    rw [if_pos ha]
  · intro hst
    have hok : applyRes.is_ok = false := by
      simp [Result.is_ok]
      exact hst
    unfold _measure_create
    cases hd : p.root.duration with
    | none => rfl
    | some d =>
      dsimp only
      rw [if_neg]
      rintro ⟨hok', -⟩
      rw [hok] at hok'
      exact Bool.false_ne_true hok'
  · intro hd
    unfold _measure_create
    rw [hd]

/-- Oracle result of `_apply_measure` for the C3 witness: success with
action id 7. -/
def w3applyRes : Result := Result.okRes (some 7) none

/-- Measure-create payload with duration 300, for the C3 witness. -/
def w3payload : MeasureCreateDto := ⟨⟨.SPEED_SECTION, none, some ((300 : ℚ) : PyFloat)⟩⟩

/-- Witness for C3: effective start 60 and duration 300 give exactly one
removal command at time 360. -/
theorem c3_witness :
    w3payload.root.duration = some ((300 : ℚ) : PyFloat)
    ∧ ((0 : ℚ) : PyFloat) < ((300 : ℚ) : PyFloat)
    ∧ w3applyRes.status = AimsunStatus.OK
    ∧ w3applyRes.value = some 7
    ∧ (0 : Int) < 7
    ∧ _measure_create w3applyRes true w3payload ((60 : ℚ) : PyFloat) =
        ⟨[mkMeasureRemoveCmd ((360 : ℚ) : PyFloat) 7], .ok (some w3applyRes)⟩ := by
  refine ⟨rfl, by decide, rfl, rfl, by decide, ?_⟩
  have h := (c3_auto_removal_scheduling w3applyRes w3payload ((60 : ℚ) : PyFloat)).1
    ((300 : ℚ) : PyFloat) 7 rfl (by decide) rfl rfl (by decide)
  rw [h]
  have hsum : ((60 : ℚ) : PyFloat) + ((300 : ℚ) : PyFloat) = ((360 : ℚ) : PyFloat) := by
    norm_num
  rw [hsum]

/-- First registered handler for the C5 counterexample (returns value 1). -/
def x5first : RawHandler := .arity0 (fun _ => ⟨[], .ok (some (Result.okRes (some 1) none))⟩)

/-- Second, different handler registered for the same kind (returns 2). -/
def x5second : RawHandler := .arity0 (fun _ => ⟨[], .ok (some (Result.okRes (some 2) none))⟩)

/-- A command of the re-registered kind. -/
def x5cmd : CommandBase := ⟨.INCIDENTS_RESET, ((0 : ℚ) : PyFloat), .noPayload⟩

/-- Counterexample to C5 as stated: registering a second, different handler
for a kind that already has one is not rejected — dispatching through the
resulting registry runs the SECOND handler (outcome value 2), not the first
(value 1).  The last registration wins; the first is silently replaced. -/
theorem c5_counterexample :
    _execute (register_handler .INCIDENTS_RESET x5second
        (register_handler .INCIDENTS_RESET x5first emptyHandlers)) x5cmd =
      (.okResult (Result.okRes (some 2) none), [])
    ∧ (ExecOutcome.okResult (Result.okRes (some 2) none), ([] : List CommandBase)) ≠
        (ExecOutcome.okResult (Result.okRes (some 1) none), ([] : List CommandBase)) := by
  exact ⟨by decide, by decide⟩

/-- C5 (amended): `register_handler` performs an unconditional dict
assignment — the newly registered handler replaces any previous one for that
kind (last registration wins, nothing is rejected or logged), and the
registration leaves every other kind's entry unchanged. -/
theorem c5_amended_last_registration_wins (t : CommandType) (fn : RawHandler)
    (hs : Handlers) :
    register_handler t fn hs t = some (wrapHandler fn)
    ∧ ∀ k, k ≠ t → register_handler t fn hs k = hs k := by
  constructor
  · simp [register_handler]
  · intro k hk
    simp [register_handler, hk]

/-- Witness for the amended C5 at concrete inputs. -/
theorem c5_witness :
    register_handler .INCIDENTS_RESET x5second emptyHandlers .INCIDENTS_RESET =
      some (wrapHandler x5second)
    ∧ register_handler .INCIDENTS_RESET x5second emptyHandlers .POLICY_ACTIVATE = none := by
  have h := c5_amended_last_registration_wins .INCIDENTS_RESET x5second emptyHandlers
  exact ⟨h.1, (h.2 .POLICY_ACTIVATE (by decide)).trans rfl⟩

/-- C6: the classifier maps every non-negative raw code to success, every
code in the fixed known-negative-code table (`AimsunStatus.lookup`) to its
specific member, and every other negative code to `UNKNOWN_ERROR`; the
classified `Result` always carries the raw code. -/
theorem c6_code_classifier (r : Int) (msg_ok msg_err : Option String) :
    (Result.from_aimsun r msg_ok msg_err).raw_code = some r
    ∧ (0 ≤ r → (Result.from_aimsun r msg_ok msg_err).status = .OK)
    ∧ (r < 0 → ∀ s, AimsunStatus.lookup r = some s →
        (Result.from_aimsun r msg_ok msg_err).status = s)
    ∧ (r < 0 → AimsunStatus.lookup r = none →
        (Result.from_aimsun r msg_ok msg_err).status = .UNKNOWN_ERROR) := by
  refine ⟨rfl, ?_, ?_, ?_⟩
  · intro h
    simp [Result.from_aimsun, h]
  · intro h s hs
    have hn : ¬ 0 ≤ r := not_le.mpr h
    simp [Result.from_aimsun, hn, AimsunStatus.from_code, hs]
  · intro h hs
    have hn : ¬ 0 ≤ r := not_le.mpr h
    simp [Result.from_aimsun, hn, AimsunStatus.from_code, hs, h]

/-- Witness for C6: a non-negative code, a known negative code, and an
unknown negative code, each classified as the claim requires. -/
theorem c6_witness :
    ((0 : Int) ≤ 3 ∧ (Result.from_aimsun 3 none none).status = .OK)
    ∧ ((-8003 : Int) < 0 ∧ AimsunStatus.lookup (-8003) = some .INCIDENT_UNKNOWN_LANE
        ∧ (Result.from_aimsun (-8003) none none).status = .INCIDENT_UNKNOWN_LANE)
    ∧ ((-7777 : Int) < 0 ∧ AimsunStatus.lookup (-7777) = none
        ∧ (Result.from_aimsun (-7777) none none).status = .UNKNOWN_ERROR)
    ∧ (Result.from_aimsun (-8003) none none).raw_code = some (-8003) := by
  refine ⟨⟨by decide, (c6_code_classifier 3 none none).2.1 (by decide)⟩,
    ⟨by decide, by decide,
      (c6_code_classifier (-8003) none none).2.2.1 (by decide) _ (by decide)⟩,
    ⟨by decide, by decide,
      (c6_code_classifier (-7777) none none).2.2.2 (by decide) (by decide)⟩,
    (c6_code_classifier (-8003) none none).1⟩

/-- C7: for an incident-create command whose field constraints hold, the
acceptance validation fails exactly when the payload's intrinsic start
instant `ini_time` is not strictly greater than the command's schedule
`time`, and accepts when it is strictly greater.  The check lives only in
validation at construction: popping applies no check — pushing ANY command
(whatever its payload) into a fresh schedule and consuming `ready(+inf)`
yields it back unchanged. -/
theorem c7_ini_time_validated_at_acceptance (t : PyFloat) (dto : IncidentCreateDto)
    (hlane : 0 < dto.lane) :
    (dto.ini_time ≤ t →
      validateCommand ⟨.INCIDENT_CREATE, t, .incidentCreate dto⟩ =
        .error .iniTimeBeforeSchedule)
    ∧ (t < dto.ini_time →
      validateCommand ⟨.INCIDENT_CREATE, t, .incidentCreate dto⟩ =
        .ok ⟨.INCIDENT_CREATE, t, .incidentCreate dto⟩)
    ∧ (∀ cb : CommandBase, (Schedule.ofItems [cb]).ready ⊤ = ([cb], ⟨[], 1⟩)) := by
  have hlane' : ¬ dto.lane ≤ 0 := not_le.mpr hlane
  refine ⟨?_, ?_, ?_⟩
  · intro h
    simp [validateCommand, hlane', h]
  · intro h
    simp [validateCommand, hlane', not_le.mpr h]
  · intro cb
    simp [Schedule.ready, Schedule.ofItems, Schedule.empty, Schedule.push,
      List.orderedInsert, readyDrain_top, Entry.cmd]

/-- Incident payload with intrinsic start 100, for the C7 witness
(schedule time 120: 100 ≤ 120, rejected). -/
def w7dto100 : IncidentCreateDto :=
  ⟨492, 1, ((10 : ℚ) : PyFloat), ((25 : ℚ) : PyFloat), ((100 : ℚ) : PyFloat),
   ((300 : ℚ) : PyFloat), ((200 : ℚ) : PyFloat), false, true,
   ((200 : ℚ) : PyFloat), ((200 : ℚ) : PyFloat), ((50 : ℚ) : PyFloat)⟩

/-- The same payload with intrinsic start 121 (121 > 120, accepted). -/
def w7dto121 : IncidentCreateDto :=
  ⟨492, 1, ((10 : ℚ) : PyFloat), ((25 : ℚ) : PyFloat), ((121 : ℚ) : PyFloat),
   ((300 : ℚ) : PyFloat), ((200 : ℚ) : PyFloat), false, true,
   ((200 : ℚ) : PyFloat), ((200 : ℚ) : PyFloat), ((50 : ℚ) : PyFloat)⟩

/-- Witness for C7: schedule time 120 with intrinsic start 100 is rejected,
with 121 accepted, and a pushed command is popped back with no check. -/
theorem c7_witness :
    (0 : Int) < w7dto100.lane
    ∧ w7dto100.ini_time ≤ ((120 : ℚ) : PyFloat)
    ∧ validateCommand ⟨.INCIDENT_CREATE, ((120 : ℚ) : PyFloat), .incidentCreate w7dto100⟩ =
        .error .iniTimeBeforeSchedule
    ∧ ((120 : ℚ) : PyFloat) < w7dto121.ini_time
    ∧ validateCommand ⟨.INCIDENT_CREATE, ((120 : ℚ) : PyFloat), .incidentCreate w7dto121⟩ =
        .ok ⟨.INCIDENT_CREATE, ((120 : ℚ) : PyFloat), .incidentCreate w7dto121⟩
    ∧ (Schedule.ofItems
        [⟨.INCIDENT_CREATE, ((120 : ℚ) : PyFloat), .incidentCreate w7dto100⟩]).ready ⊤ =
      ([⟨.INCIDENT_CREATE, ((120 : ℚ) : PyFloat), .incidentCreate w7dto100⟩], ⟨[], 1⟩) := by
  refine ⟨by decide, by decide, ?_, by decide, ?_, ?_⟩
  · exact (c7_ini_time_validated_at_acceptance ((120 : ℚ) : PyFloat) w7dto100
      (by decide)).1 (by decide)
  · exact (c7_ini_time_validated_at_acceptance ((120 : ℚ) : PyFloat) w7dto121
      (by decide)).2.1 (by decide)
  · exact (c7_ini_time_validated_at_acceptance ((120 : ℚ) : PyFloat) w7dto100
      (by decide)).2.2 _

/-- Counterexample to C8 as stated: `stop()` on a supervisor with no worker
process (`self._proc is None` — never started, or already stopped) raises
`AttributeError` instead of returning as a no-op, and a second `start()`
while a process is already running spawns a second process (two
`mp.Process(...).start()` calls, no warning, the first handle silently
overwritten). -/
theorem c8_counterexample :
    ServerProcess.init.stop = .error .attributeError
    ∧ (ServerProcess.init.start.start).spawned = 2 := ⟨rfl, rfl⟩

/-- C8 (amended): `ServerProcess.start` unconditionally spawns a fresh
worker process, overwrites the stored handle, and leaves the queue alone;
`ServerProcess.stop` with a process handle present and the queue alive
terminates/joins as needed, closes both, and clears them; `stop` with no
process handle raises `AttributeError`. -/
theorem c8_amended_start_stop (sp : ServerProcess) :
    (sp.start.proc = some true ∧ sp.start.spawned = sp.spawned + 1
      ∧ sp.start.queue_present = sp.queue_present)
    ∧ (∀ a, sp.proc = some a → sp.queue_present = true →
        sp.stop = .ok ⟨none, false, sp.spawned⟩)
    ∧ (sp.proc = none → sp.stop = .error .attributeError) := by
  refine ⟨⟨rfl, rfl, rfl⟩, ?_, ?_⟩
  · intro a h hq
    simp [ServerProcess.stop, h, hq]
  · intro h
    simp [ServerProcess.stop, h]

/-- Witness for the amended C8 at concrete states: a started supervisor
stops cleanly; a never-started one raises. -/
theorem c8_witness :
    ((ServerProcess.mk (some true) true 1).proc = some true
      ∧ (ServerProcess.mk (some true) true 1).queue_present = true
      ∧ (ServerProcess.mk (some true) true 1).stop = .ok ⟨none, false, 1⟩)
    ∧ (ServerProcess.init.proc = none
      ∧ ServerProcess.init.stop = .error .attributeError) := by
  refine ⟨⟨rfl, rfl, ?_⟩, rfl, ?_⟩
  · exact (c8_amended_start_stop (ServerProcess.mk (some true) true 1)).2.1 true rfl rfl
  · exact (c8_amended_start_stop ServerProcess.init).2.2 rfl

instance {ε α : Type} [DecidableEq ε] [DecidableEq α] : DecidableEq (Except ε α) :=
  fun a b =>
    match a, b with
    | .ok x, .ok y =>
      if h : x = y then .isTrue (by rw [h]) else .isFalse (by intro hc; cases hc; exact h rfl)
    | .error x, .error y =>
      if h : x = y then .isTrue (by rw [h]) else .isFalse (by intro hc; cases hc; exact h rfl)
    | .ok _, .error _ => .isFalse (by intro hc; cases hc)
    | .error _, .ok _ => .isFalse (by intro hc; cases hc)

/-- A schedule chunk whose entries are all well-formed (the shape of the
repository's own `test_valid_schedule`/`test_schedule_sorts_by_time`
fixtures). -/
def x9goodChunk : List CommandBase :=
  [⟨.INCIDENTS_RESET, ((300 : ℚ) : PyFloat), .noPayload⟩,
   ⟨.MEASURE_REMOVE, ((150 : ℚ) : PyFloat), .measureRemove ⟨42⟩⟩]

/-- A chunk with one well-formed entry and one malformed entry
(`id_action = -1` violates the declared bound `gt=0`). -/
def x9badChunk : List CommandBase :=
  [⟨.INCIDENTS_RESET, ((300 : ℚ) : PyFloat), .noPayload⟩,
   ⟨.MEASURE_REMOVE, ((150 : ℚ) : PyFloat), .measureRemove ⟨-1⟩⟩]

/-- C9 evaluated at the failing inputs: loading a chunk in which EVERY entry
is well-formed crashes the whole load with `AttributeError` (the
`schedule.extend(validated)` call names a method `Schedule` does not have),
so no well-formed entry is ever inserted — contrary to the claim and to the
repository's own `test_valid_schedule`; and a chunk containing one malformed
entry is rejected atomically with a diagnostic, its well-formed entry NOT
inserted (`ScheduleRoot.model_validate` validates the chunk as a whole), so
the load returns an empty schedule. -/
theorem c9_parse_schedule_failing_inputs :
    scheduleRootValidate x9goodChunk = .ok x9goodChunk
    ∧ parseSchedule [x9goodChunk] = .error .attributeError
    ∧ scheduleRootValidate x9badChunk = .error (.validationError [.fieldConstraint])
    ∧ parseSchedule [x9badChunk] = .ok (Schedule.empty, [.fieldConstraint]) := by
  refine ⟨by decide, by decide, by decide, by decide⟩

end Tcon



